import Mathlib

/-!
Verification development for the yurki batch text-processing engine.

The Python convenience layer (yurki/__init__.py, yurki/regexp/__init__.py,
yurki/test/__init__.py) is embedded directly from its source.  The native
engine behind yurki.internal is not part of the source tree; its components
(job partitioner, parallel dispatcher, regex operation set, ownership
transfer layer, tokenizer) are modelled from the specification, as marked
on each definition.

Strings are modelled as lists of Unicode codepoints (List Char), matching
the codepoint-level semantics the engine guarantees.
-/

namespace Yurki

/-- Slice of a codepoint sequence: positions a (inclusive) to b (exclusive). -/
def listSlice (s : List Char) (a b : Nat) : List Char :=
  (s.drop a).take (b - a)

/-- Modelled from the spec: one regex match outcome over a string — the
span of the whole match plus, for each capture group in declaration order,
the captured text, or none when the group did not participate. -/
structure RMatch where
  mstart : Nat
  mstop : Nat
  groups : List (Option (List Char))
  deriving Repr, DecidableEq

/-- Modelled from the spec: a CompiledPattern is an immutable matcher;
given a string and a scan position it returns the leftmost match starting
at or after that position, or none. -/
def Matcher : Type := List Char → Nat → Option RMatch

/-- Text of the whole match within the subject string. -/
def RMatch.matchText (r : RMatch) (s : List Char) : List Char :=
  listSlice s r.mstart r.mstop

/-- Group lookup used by replacement resolution: index 0 is the whole
match, index k is capture group k, and the empty string stands for a group
that is absent or did not participate. -/
def RMatch.groupText (r : RMatch) (s : List Char) (k : Nat) : List Char :=
  if k = 0 then r.matchText s
  else ((r.groups.getD (k - 1) none).getD [])

/-- Position at which the non-overlapping scan resumes after a match: the
match end, advanced by one codepoint when the match was empty. -/
def nextScanPos (r : RMatch) : Nat :=
  if r.mstop = r.mstart then r.mstop + 1 else r.mstop

/-- Modelled from the spec: all non-overlapping matches found scanning
left to right from a position, with explicit fuel. -/
def allMatchesFrom (m : Matcher) (s : List Char) : Nat → Nat → List RMatch
  | _, 0 => []
  | p, fuel + 1 =>
    match m s p with
    | none => []
    | some r => r :: allMatchesFrom m s (nextScanPos r) fuel

/-- All non-overlapping matches of the pattern in the string. -/
def allMatches (m : Matcher) (s : List Char) : List RMatch :=
  allMatchesFrom m s 0 (s.length + 1)

/-! ## Job partitioner and parallel dispatcher (modelled from the spec) -/

/-- Modelled from the spec: the ranges of a JobPlan as (start, length)
pairs; w ranges, each of base size q, the first r of them one item
longer. -/
def mkRanges (start q r : Nat) : Nat → List (Nat × Nat)
  | 0 => []
  | w + 1 =>
    (start, q + (if 0 < r then 1 else 0)) ::
      mkRanges (start + (q + (if 0 < r then 1 else 0))) q (r - 1) w

/-- Modelled from the spec: JobPlan for n items and a requested job count.
Below 1000 items the plan collapses to a single range; otherwise n is cut
into min(jobs, n) near-equal contiguous ranges, the remainder distributed
one extra item to each of the first (n mod w) ranges. -/
def plan (n jobs : Nat) : List (Nat × Nat) :=
  if n < 1000 then [(0, n)]
  else
    let w := max 1 (min jobs n)
    mkRanges 0 (n / w) (n % w) w

/-- Modelled from the spec: the parallel dispatcher. Each worker maps the
per-item operation over its assigned contiguous range and writes into the
output slots of that same range; the assembled output is the concatenation
of the per-range results in range order. -/
def dispatch (op : α → β) (data : List α) (ranges : List (Nat × Nat)) : List β :=
  ranges.flatMap (fun g => ((data.drop g.1).take g.2).map op)

/-- Modelled from the spec: run one per-item operation over a batch with a
given job count — plan the ranges, dispatch the workers, join. -/
def runJobs (op : α → β) (data : List α) (jobs : Nat) : List β :=
  dispatch op data (plan data.length jobs)

/-- Sum of the lengths of the ranges produced by mkRanges. -/
theorem mkRanges_total (q : Nat) :
    ∀ w start r, ((mkRanges start q r w).map Prod.snd).sum = q * w + min r w := by
  intro w
  induction w with
  | zero => intro start r; simp [mkRanges]
  | succ w ih =>
    intro start r
    simp only [mkRanges, List.map_cons, List.sum_cons, ih]
    rcases r with _ | t
    · simp [Nat.mul_succ]; ring
    · simp [Nat.succ_min_succ, Nat.mul_succ]; ring

/-- Dispatching over the contiguous ranges of mkRanges equals mapping over
the contiguous slice they jointly cover. -/
theorem dispatch_mkRanges (op : α → β) (data : List α) (q : Nat) :
    ∀ w start r, dispatch op data (mkRanges start q r w) =
      ((data.drop start).take (q * w + min r w)).map op := by
  intro w
  induction w with
  | zero => intro start r; simp [mkRanges, dispatch]
  | succ w ih =>
    intro start r
    have hlen : q * (w + 1) + min r (w + 1) =
        (q + (if 0 < r then 1 else 0)) + (q * w + min (r - 1) w) := by
      rcases r with _ | t
      · simp [Nat.mul_succ]; ring
      · simp [Nat.succ_min_succ, Nat.mul_succ]; ring
    have ihw := ih (start + (q + (if 0 < r then 1 else 0))) (r - 1)
    simp only [mkRanges, dispatch, List.flatMap_cons] at *
    conv_rhs => rw [hlen, List.take_add, List.map_append, List.drop_drop]
    rw [ihw]

theorem dispatch_plan (op : α → β) (data : List α) (jobs : Nat) :
    dispatch op data (plan data.length jobs) = data.map op := by
  unfold plan
  by_cases h : data.length < 1000
  · simp [h, dispatch]
  · simp only [h, if_false]
    set w := max 1 (min jobs data.length) with hw
    have hwpos : 0 < w := by omega
    rw [dispatch_mkRanges]
    have hmod : data.length % w < w := Nat.mod_lt _ hwpos
    have hkey : data.length / w * w + min (data.length % w) w = data.length := by
      rw [Nat.min_eq_left (Nat.le_of_lt hmod)]
      exact Nat.div_add_mod' data.length w
    simp [hkey]

/-- Running with any job count computes the plain per-item map. -/
theorem runJobs_eq_map (op : α → β) (data : List α) (jobs : Nat) :
    runJobs op data jobs = data.map op :=
  dispatch_plan op data jobs

/-! ## Regex operation set (modelled from the spec) -/

/-- Modelled from the spec: find — the text of the first match, or the
empty-string sentinel when there is no match. -/
def findOp (m : Matcher) (s : List Char) : List Char :=
  match m s 0 with
  | none => []
  | some r => r.matchText s

/-- Modelled from the spec: is_match — a boolean projection of the
existence of a match. -/
def isMatchOp (m : Matcher) (s : List Char) : Bool :=
  (m s 0).isSome

/-- Modelled from the spec: capture — on the first match, the whole match
followed by the capture groups in declaration order, non-participating
groups becoming empty strings; with no match, the empty sequence. -/
def captureOp (m : Matcher) (s : List Char) : List (List Char) :=
  match m s 0 with
  | none => []
  | some r => r.matchText s :: r.groups.map (fun g => g.getD [])

/-- Modelled from the spec: copy — the identity per-item baseline
transform. -/
def copyOp (s : List Char) : List Char := s

/-- Modelled from the spec: uppercase — the Unicode default case mapping
applied per codepoint. -/
def upperOp (s : List Char) : List Char := s.map Char.toUpper

/-- Modelled from the spec: the splitting scan. Argument e is the end of
the previously consumed delimiter (start of the pending fragment), p the
scan position (past an empty delimiter match). -/
def splitGo (m : Matcher) (s : List Char) : Nat → Nat → Nat → List (List Char)
  | e, _, 0 => [s.drop e]
  | e, p, fuel + 1 =>
    match m s p with
    | none => [s.drop e]
    | some r => listSlice s e r.mstart :: splitGo m s r.mstop (nextScanPos r) fuel

/-- Modelled from the spec: split — the fragments of the string between
consecutive non-overlapping delimiter matches. -/
def splitOp (m : Matcher) (s : List Char) : List (List Char) :=
  splitGo m s 0 0 (s.length + 1)

/-- The fragments a given (ordered) match list cuts a string into:
the text between consecutive match boundaries, with a leading and a
trailing fragment, each possibly empty. -/
def fragmentsFrom (s : List Char) : Nat → List RMatch → List (List Char)
  | e, [] => [s.drop e]
  | e, r :: rs => listSlice s e r.mstart :: fragmentsFrom s r.mstop rs

/-- The splitting scan produces exactly the fragments cut by the match
list the same scan discovers. -/
theorem splitGo_eq_fragments (m : Matcher) (s : List Char) :
    ∀ fuel e p, splitGo m s e p fuel = fragmentsFrom s e (allMatchesFrom m s p fuel) := by
  intro fuel
  induction fuel with
  | zero => intro e p; simp [splitGo, allMatchesFrom, fragmentsFrom]
  | succ fuel ih =>
    intro e p
    rw [splitGo, allMatchesFrom]
    cases m s p with
    | none => simp [fragmentsFrom]
    | some r => simp [fragmentsFrom, ih]

/-- Numeric value of a digit run in a replacement backreference. -/
def digitsVal (ds : List Char) : Nat :=
  ds.foldl (fun n c => n * 10 + (c.toNat - 48)) 0

/-- Template resolution scanner with explicit fuel; every step consumes
at least one codepoint, so fuel equal to the template length suffices. -/
def resolveReplGo (gs : Nat → List Char) : Nat → List Char → List Char
  | _, [] => []
  | 0, l => l
  | fuel + 1, c :: rest =>
    if c = '$' then
      match rest.takeWhile Char.isDigit with
      | [] => c :: resolveReplGo gs fuel rest
      | _ :: _ => gs (digitsVal (rest.takeWhile Char.isDigit)) ++
          resolveReplGo gs fuel (rest.dropWhile Char.isDigit)
    else c :: resolveReplGo gs fuel rest

/-- Modelled from the spec: resolve a replacement template against one
match — every $k (k a run of digits) becomes the text of capture group k
of that match, every other codepoint is copied unchanged. -/
def resolveRepl (gs : Nat → List Char) (t : List Char) : List Char :=
  resolveReplGo gs t.length t

/-- One segment of a parsed replacement template: a literal codepoint or a
backreference to a capture group. -/
inductive RSeg where
  | lit (c : Char)
  | ref (k : Nat)
  deriving Repr, DecidableEq

/-- Template parsing scanner with explicit fuel, mirroring the
resolution scanner. -/
def parseTemplateGo : Nat → List Char → List RSeg
  | _, [] => []
  | 0, l => l.map RSeg.lit
  | fuel + 1, c :: rest =>
    if c = '$' then
      match rest.takeWhile Char.isDigit with
      | [] => RSeg.lit c :: parseTemplateGo fuel rest
      | _ :: _ => RSeg.ref (digitsVal (rest.takeWhile Char.isDigit)) ::
          parseTemplateGo fuel (rest.dropWhile Char.isDigit)
    else RSeg.lit c :: parseTemplateGo fuel rest

/-- Parse a replacement template into literal and backreference
segments. -/
def parseTemplate (t : List Char) : List RSeg :=
  parseTemplateGo t.length t

/-- Render parsed template segments against a group lookup. -/
def renderSegs (gs : Nat → List Char) (segs : List RSeg) : List Char :=
  segs.flatMap (fun seg => match seg with | RSeg.lit c => [c] | RSeg.ref k => gs k)

/-- Modelled from the spec: the bounded left-to-right replacement scan.
Argument e is the end of the last replaced match (start of the pending
verbatim text), p the scan position, budget the remaining replacement
count (none = unbounded). -/
def replaceFrom (m : Matcher) (repl s : List Char) :
    Nat → Nat → Nat → Option Nat → List Char
  | e, _, 0, _ => s.drop e
  | e, p, fuel + 1, budget =>
    if budget = some 0 then s.drop e
    else
      match m s p with
      | none => s.drop e
      | some r =>
        listSlice s e r.mstart ++ resolveRepl (r.groupText s) repl ++
          replaceFrom m repl s r.mstop (nextScanPos r) fuel (budget.map (· - 1))

/-- Modelled from the spec: replace — bounded left-to-right substitution;
count 0 replaces every non-overlapping match, count N replaces the first
N matches and stops the scan there. -/
def engineReplace (m : Matcher) (repl : List Char) (count : Nat) (s : List Char) : List Char :=
  replaceFrom m repl s 0 0 (s.length + 1) (if count = 0 then none else some count)

/-- Splice a given (ordered) match list into a string: text before each
match copied verbatim, each match replaced by the resolved template, the
tail after the last spliced match copied verbatim. -/
def spliceFrom (repl s : List Char) : Nat → List RMatch → List Char
  | e, [] => s.drop e
  | e, r :: rs =>
    listSlice s e r.mstart ++ resolveRepl (r.groupText s) repl ++ spliceFrom repl s r.mstop rs

/-- Truncate a match list to a replacement budget (none = keep all). -/
def takeBudget : Option Nat → List RMatch → List RMatch
  | none, l => l
  | some k, l => l.take k

/-- The replacement scan splices exactly the budget-truncated prefix of
the match list the same scan discovers. -/
theorem replaceFrom_eq_splice (m : Matcher) (repl s : List Char) :
    ∀ fuel e p budget, replaceFrom m repl s e p fuel budget =
      spliceFrom repl s e (takeBudget budget (allMatchesFrom m s p fuel)) := by
  intro fuel
  induction fuel with
  | zero =>
    intro e p budget
    cases budget <;> simp [replaceFrom, allMatchesFrom, takeBudget, spliceFrom]
  | succ fuel ih =>
    intro e p budget
    rw [replaceFrom, allMatchesFrom]
    by_cases hb : budget = some 0
    · subst hb
      simp [takeBudget, spliceFrom]
    · simp only [hb, if_false]
      cases m s p with
      | none => cases budget <;> simp [takeBudget, spliceFrom]
      | some r =>
        cases budget with
        | none => simp [takeBudget, spliceFrom, ih]
        | some k =>
          cases k with
          | zero => exact absurd rfl hb
          | succ k => simp [takeBudget, spliceFrom, ih]

/-- Rendering a template of pure literals returns the literal text. -/
theorem renderSegs_map_lit (gs : Nat → List Char) (l : List Char) :
    renderSegs gs (l.map RSeg.lit) = l := by
  induction l with
  | nil => rfl
  | cons c rest ih => simp [renderSegs] at ih ⊢; exact ih

/-- At every fuel level the resolution scanner agrees with parsing and
rendering. -/
theorem resolveReplGo_eq_render (gs : Nat → List Char) :
    ∀ (fuel : Nat) (t : List Char),
      resolveReplGo gs fuel t = renderSegs gs (parseTemplateGo fuel t) := by
  intro fuel
  induction fuel with
  | zero =>
    intro t
    cases t with
    | nil => rfl
    | cons c rest =>
      rw [resolveReplGo, parseTemplateGo, renderSegs_map_lit]
      all_goals simp
  | succ fuel ih =>
    intro t
    cases t with
    | nil => rfl
    | cons c rest =>
      rw [resolveReplGo, parseTemplateGo]
      by_cases hc : c = '$'
      · cases htw : rest.takeWhile Char.isDigit with
        | nil => simp [hc, htw, ih, renderSegs]
        | cons d ds => simp [hc, htw, ih, renderSegs]
      · simp [hc, ih, renderSegs]

/-- The direct replacement-template scanner agrees with parsing the
template into segments and rendering each segment: every $k becomes the
group lookup at k, every other codepoint is copied as a literal. -/
theorem resolveRepl_eq_renderSegs (gs : Nat → List Char) (t : List Char) :
    resolveRepl gs t = renderSegs gs (parseTemplate t) :=
  resolveReplGo_eq_render gs t.length t

/-! ## Concrete matchers (modelled from the spec's regex semantics for
the patterns its examples use) -/

/-- Scan positions left to right and return the first anchored match. -/
def scanFirst (f : Nat → Option RMatch) : Nat → Nat → Option RMatch
  | _, 0 => none
  | p, fuel + 1 =>
    match f p with
    | some r => some r
    | none => scanFirst f (p + 1) fuel

/-- Build a leftmost-first matcher from an anchored per-position match
function. -/
def mkMatcher (f : List Char → Nat → Option RMatch) : Matcher :=
  fun s pos => scanFirst (f s) pos (s.length + 1 - pos)

/-- Word character in the sense of the regex class \w. -/
def isWordChar (c : Char) : Bool := c.isAlphanum || c = '_'

/-- Modelled from the spec: the pattern [,;] anchored at one position — a
single codepoint that is a comma or a semicolon; no capture groups. -/
def commaSemiAt (s : List Char) (p : Nat) : Option RMatch :=
  match s.drop p with
  | [] => none
  | c :: _ => if c = ',' ∨ c = ';' then some ⟨p, p + 1, []⟩ else none

/-- CompiledPattern for the delimiter pattern [,;]. -/
def commaSemiMatcher : Matcher := mkMatcher commaSemiAt

/-- Modelled from the spec: the pattern (\d+) anchored at one position —
a maximal nonempty digit run, captured as group 1. -/
def digitRunAt (s : List Char) (p : Nat) : Option RMatch :=
  match (s.drop p).takeWhile Char.isDigit with
  | [] => none
  | d :: ds => some ⟨p, p + (d :: ds).length, [some (d :: ds)]⟩

/-- CompiledPattern for the pattern (\d+). -/
def digitMatcher : Matcher := mkMatcher digitRunAt

/-- Modelled from the spec: the pattern name: (\w+) anchored at one
position — the literal text, then a maximal nonempty word-character run
captured as group 1. -/
def namePatternAt (s : List Char) (p : Nat) : Option RMatch :=
  if (s.drop p).take 6 = String.toList "name: " then
    match (s.drop (p + 6)).takeWhile isWordChar with
    | [] => none
    | d :: ds => some ⟨p, p + 6 + (d :: ds).length, [some (d :: ds)]⟩
  else none

/-- CompiledPattern for the pattern name: (\w+). -/
def nameMatcher : Matcher := mkMatcher namePatternAt

/-- Modelled from the spec: the pattern [Tt]est\s+\w{6,} anchored at one
position — T or t, the literal est, a maximal nonempty whitespace run,
then a maximal word-character run of at least six codepoints; no capture
groups. -/
def testPatternAt (s : List Char) (p : Nat) : Option RMatch :=
  match s.drop p with
  | [] => none
  | c :: _ =>
    if (c = 'T' ∨ c = 't') ∧ (s.drop (p + 1)).take 3 = String.toList "est" then
      match (s.drop (p + 4)).takeWhile Char.isWhitespace with
      | [] => none
      | w :: ws =>
        if ((s.drop (p + 4 + (w :: ws).length)).takeWhile isWordChar).length < 6 then none
        else
          some ⟨p, p + 4 + (w :: ws).length +
            ((s.drop (p + 4 + (w :: ws).length)).takeWhile isWordChar).length, []⟩
    else none

/-- CompiledPattern for the pattern [Tt]est\s+\w{6,}. -/
def testMatcher : Matcher := mkMatcher testPatternAt

/-! ## Ownership transfer layer (modelled from the spec) -/

/-- Modelled from the spec: one in-place slot update — move the item out
of slot i, apply the operation, write the result back into slot i. -/
def setSlot (op : α → α) (d : α) (acc : List α) (i : Nat) : List α :=
  acc.set i (op (acc.getD i d))

/-- Modelled from the spec: in-place mode — the workers of the job plan
write their transformed items back into the input's own slots, range by
range, instead of allocating a fresh output batch. -/
def runInplace (op : α → α) (d : α) (data : List α) (jobs : Nat) : List α :=
  (plan data.length jobs).foldl
    (fun acc g => (List.range' g.1 g.2).foldl (setSlot op d) acc) data

/-- A list is unchanged past a slot that was just set. -/
theorem drop_set_succ (l : List α) : ∀ (i : Nat) (x : α), (l.set i x).drop (i + 1) = l.drop (i + 1) := by
  induction l with
  | nil => intro i x; simp
  | cons a t ih =>
    intro i x
    cases i with
    | zero => simp
    | succ i => simpa using ih i x

/-- Taking one past a just-set slot splits as the untouched prefix plus
the new value. -/
theorem take_set_succ (l : List α) :
    ∀ (i : Nat) (x : α), i < l.length → (l.set i x).take (i + 1) = l.take i ++ [x] := by
  induction l with
  | nil => intro i x h; simp at h
  | cons a t ih =>
    intro i x h
    cases i with
    | zero => simp
    | succ i =>
      simp only [List.set_cons_succ, List.take_succ_cons, List.take_cons]
      rw [ih i x (by simpa using h)]
      simp

/-- Sequentially moving each slot of a contiguous index range through the
operation and writing it back rewrites exactly that range to its mapped
image. -/
theorem foldl_setSlot_range (op : α → α) (d : α) :
    ∀ (k i : Nat) (l : List α), i + k = l.length →
      (List.range' i k).foldl (setSlot op d) l = l.take i ++ (l.drop i).map op := by
  intro k
  induction k with
  | zero =>
    intro i l h
    have hi : l.length ≤ i := by omega
    simp [List.range', List.take_of_length_le hi, List.drop_of_length_le hi]
  | succ k ih =>
    intro i l h
    have hi : i < l.length := by omega
    have hstep : (List.range' i (k + 1)).foldl (setSlot op d) l =
        (List.range' (i + 1) k).foldl (setSlot op d) (l.set i (op (l.getD i d))) := by
      rw [List.range'_succ]
      rfl
    rw [hstep]
    have hlen : (i + 1) + k = (l.set i (op (l.getD i d))).length := by
      simp [List.length_set]; omega
    rw [ih (i + 1) _ hlen]
    rw [take_set_succ l i _ hi, drop_set_succ l i _]
    have hgd : l.getD i d = l.get ⟨i, hi⟩ := by
      simp [List.getD_eq_getElem?_getD, List.getElem?_eq_getElem hi]
    have hdrop : l.drop i = l.get ⟨i, hi⟩ :: l.drop (i + 1) := by
      rw [List.drop_eq_getElem_cons hi]
      simp
    rw [hdrop, List.map_cons, hgd]
    simp

/-- The ranges of mkRanges, flattened to the index sequence they cover. -/
theorem mkRanges_flat_indices (q : Nat) :
    ∀ (w start r : Nat), ((mkRanges start q r w).flatMap (fun g => List.range' g.1 g.2)) =
      List.range' start (q * w + min r w) := by
  intro w
  induction w with
  | zero => intro start r; simp [mkRanges]
  | succ w ih =>
    intro start r
    have hlen : q * (w + 1) + min r (w + 1) =
        (q + (if 0 < r then 1 else 0)) + (q * w + min (r - 1) w) := by
      rcases r with _ | t
      · simp [Nat.mul_succ]; ring
      · simp [Nat.succ_min_succ, Nat.mul_succ]; ring
    rw [mkRanges]
    simp only [List.flatMap_cons, ih]
    rw [hlen]
    have harr := List.range'_append start (q + (if 0 < r then 1 else 0))
      (q * w + min (r - 1) w) 1
    simp only [one_mul, Nat.mul_one] at harr
    rw [Nat.add_comm (q * w + min (r - 1) w) (q + (if 0 < r then 1 else 0))] at harr
    exact harr

/-- Folding a slot writer over a range list equals folding it over the
flattened index sequence. -/
theorem foldl_ranges_eq_foldl_flat (f : List α → Nat → List α) :
    ∀ (ranges : List (Nat × Nat)) (l : List α),
      ranges.foldl (fun acc g => (List.range' g.1 g.2).foldl f acc) l =
        (ranges.flatMap (fun g => List.range' g.1 g.2)).foldl f l := by
  intro ranges
  induction ranges with
  | nil => intro l; simp
  | cons g gs ih => intro l; simp [List.foldl_append, ih]

/-- The indices of the whole job plan are exactly 0, …, n-1. -/
theorem plan_flat_indices (n jobs : Nat) :
    (plan n jobs).flatMap (fun g => List.range' g.1 g.2) = List.range' 0 n := by
  unfold plan
  by_cases h : n < 1000
  · simp [h]
  · simp only [h, if_false]
    set w := max 1 (min jobs n) with hw
    have hwpos : 0 < w := by omega
    rw [mkRanges_flat_indices]
    have hmod : n % w < w := Nat.mod_lt _ hwpos
    have hkey : n / w * w + min (n % w) w = n := by
      rw [Nat.min_eq_left (Nat.le_of_lt hmod)]
      exact Nat.div_add_mod' n w
    rw [hkey]

/-- In-place mode computes the same values as the plain per-item map. -/
theorem runInplace_eq_map (op : α → α) (d : α) (data : List α) (jobs : Nat) :
    runInplace op d data jobs = data.map op := by
  unfold runInplace
  rw [foldl_ranges_eq_foldl_flat, plan_flat_indices]
  have h := foldl_setSlot_range op d data.length 0 data (by omega)
  simpa using h

/-! ## Tokenizer / vectorizer (modelled from the spec) -/

/-- Insert the n-grams of one row into the vocabulary, assigning ids in
first-observed order. -/
def vocabInsertRow (grams : List (List Char)) (vocab : List (List Char)) : List (List Char) :=
  grams.foldl (fun v g => if g ∈ v then v else v ++ [g]) vocab

/-- Modelled from the spec: the batch-global vocabulary, built by a
deterministic order-respecting pass over the whole batch, each distinct
n-gram receiving the next id the first time it is observed. -/
def buildVocab (gramsOf : α → List (List Char)) (data : List α) : List (List Char) :=
  data.foldl (fun v row => vocabInsertRow (gramsOf row) v) []

/-- The distinct elements of a list in first-occurrence order. -/
def distinctFirstSeen (l : List (List Char)) : List (List Char) :=
  l.foldl (fun acc g => if g ∈ acc then acc else acc ++ [g]) []

/-- Modelled from the spec: the (vocabulary id, occurrence count) pairs
of one row against a fixed vocabulary. -/
def rowPairs (gramsOf : α → List (List Char)) (vocab : List (List Char)) (row : α) :
    List (Nat × Nat) :=
  (distinctFirstSeen (gramsOf row)).map
    (fun g => (vocab.indexOf g, (gramsOf row).count g))

/-- Modelled from the spec: tokenize — fix the vocabulary with a
deterministic sequential pass, then count every row in parallel through
the dispatcher. -/
def tokenizeJobs (gramsOf : α → List (List Char)) (data : List α) (jobs : Nat) :
    List (List (Nat × Nat)) × List (List Char) :=
  (runJobs (rowPairs gramsOf (buildVocab gramsOf data)) data jobs, buildVocab gramsOf data)

/-! ## Error handling (modelled from the spec) -/

/-- Modelled from the spec: the error taxonomy of the engine. -/
inductive EngineError where
  | patternCompilation (detail : List Char)
  | jobCount
  | encoding
  | workerFailure
  deriving Repr, DecidableEq

/-- Modelled from the spec: one engine call — compile the pattern (fail
fast with the original syntax-error detail), validate the job count,
and only then dispatch the workers over the job plan. -/
def callEngine (compiled : Except (List Char) Matcher) (jobs : Int)
    (op : Matcher → List Char → β) (data : List (List Char)) : Except EngineError (List β) :=
  match compiled with
  | Except.error detail => Except.error (EngineError.patternCompilation detail)
  | Except.ok m =>
    if jobs < 1 then Except.error EngineError.jobCount
    else Except.ok (runJobs (op m) data jobs.toNat)

/-- Ranges actually handed to workers by an engine call: none when a
pre-dispatch check fails. -/
def spawnedRanges (compiled : Except (List Char) Matcher) (jobs : Int) (n : Nat) :
    List (Nat × Nat) :=
  match compiled with
  | Except.error _ => []
  | Except.ok _ => if jobs < 1 then [] else plan n jobs.toNat

/-! ## Convenience layer (embedded from the Python source) -/

/-- Embedded from yurki/regexp/__init__.py, __auto_select_jobs: one job
below 1000 items, otherwise the CPU count. -/
def autoSelectJobs (cpuCount : Nat) (data : List α) : Nat :=
  if data.length < 1000 then 1 else cpuCount

/-- Embedded from yurki/regexp/__init__.py: the job count each regexp
wrapper (find, is_match, capture, split, replace) passes to the engine —
the caller's explicit value, or the auto-selected one when omitted. -/
def regexpWrapperJobs (cpuCount : Nat) (data : List α) (jobs : Option Nat) : Nat :=
  match jobs with
  | none => autoSelectJobs cpuCount data
  | some j => j

/-- Embedded from yurki/__init__.py, tokenize_string: the jobs parameter
defaults to 1 when omitted; no auto-selection is applied. -/
def tokenizeWrapperJobs (jobs : Option Nat) : Nat := jobs.getD 1

/-- Embedded from yurki/test/__init__.py, copy: the jobs parameter
defaults to 1 when omitted; no auto-selection is applied. -/
def copyWrapperJobs (jobs : Option Nat) : Nat := jobs.getD 1

/-- Embedded from yurki/regexp/__init__.py, replace: the count parameter
defaults to 1 when omitted; the wrapper forwards data, pattern,
replacement, count and jobs to the engine unchanged. -/
def replaceWrapper (m : Matcher) (data : List (List Char)) (repl : List Char)
    (count : Nat := 1) (jobs : Nat := 1) : List (List Char) :=
  runJobs (engineReplace m repl count) data jobs

/-- Embedded from yurki/__init__.py, tokenize_string: one step of the
compressed-row assembly loop — extend the index sequence with the row's
ids, the value sequence with its counts, and append the new total length
of the index sequence to the row-pointer sequence. -/
def csrStep (acc : List Int × List Int × List Nat) (row : List Int × List Int) :
    List Int × List Int × List Nat :=
  (acc.1 ++ row.1, acc.2.1 ++ row.2, acc.2.2 ++ [(acc.1 ++ row.1).length])

/-- Embedded from yurki/__init__.py, tokenize_string: assemble per-row
(ids, counts) pairs into (indices, values, indptr), starting from empty
sequences and an initial row pointer 0. -/
def assembleCSR (rows : List (List Int × List Int)) : List Int × List Int × List Nat :=
  rows.foldl csrStep ([], [], [0])

/-- The cumulative row-pointer tail generated from a starting offset. -/
def rowPtrs (b : Nat) : List (List Int × List Int) → List Nat
  | [] => []
  | row :: rest => (b + row.1.length) :: rowPtrs (b + row.1.length) rest

/-- Closed form of the assembly fold. -/
theorem foldl_csrStep (rows : List (List Int × List Int)) :
    ∀ (is vs : List Int) (ps : List Nat),
      rows.foldl csrStep (is, vs, ps) =
        (is ++ rows.flatMap Prod.fst, vs ++ rows.flatMap (fun r => r.2),
          ps ++ rowPtrs is.length rows) := by
  induction rows with
  | nil => intro is vs ps; simp [rowPtrs]
  | cons row rest ih =>
    intro is vs ps
    simp only [List.foldl_cons, csrStep, ih, rowPtrs, List.flatMap_cons]
    simp [List.append_assoc]

/-- The assembled triple, in closed form. -/
theorem assembleCSR_eq (rows : List (List Int × List Int)) :
    assembleCSR rows =
      (rows.flatMap Prod.fst, rows.flatMap (fun r => r.2), 0 :: rowPtrs 0 rows) := by
  unfold assembleCSR
  rw [foldl_csrStep]
  simp

/-- Each row-pointer sequence from offset b has one entry per row. -/
theorem rowPtrs_length (rows : List (List Int × List Int)) :
    ∀ b, (rowPtrs b rows).length = rows.length := by
  induction rows with
  | nil => intro b; simp [rowPtrs]
  | cons row rest ih => intro b; simp [rowPtrs, ih]

/-- The last row pointer is the starting offset plus the total id
count. -/
theorem rowPtrs_getLast (rows : List (List Int × List Int)) :
    ∀ b, (b :: rowPtrs b rows).getLast (by simp) =
      b + (rows.flatMap Prod.fst).length := by
  induction rows with
  | nil => intro b; simp [rowPtrs]
  | cons row rest ih =>
    intro b
    rw [rowPtrs, List.getLast_cons (by simp)]
    rw [ih (b + row.1.length)]
    simp [Nat.add_assoc]

/-- Consecutive row pointers differ by exactly the id count of the row in
between. -/
theorem rowPtrs_succ_diff (rows : List (List Int × List Int)) :
    ∀ b i, i < rows.length →
      (b :: rowPtrs b rows).getD (i + 1) 0 =
        (b :: rowPtrs b rows).getD i 0 + ((rows.getD i ([], [])).1).length := by
  induction rows with
  | nil => intro b i h; simp at h
  | cons row rest ih =>
    intro b i h
    cases i with
    | zero => simp [rowPtrs]
    | succ i =>
      have hi : i < rest.length := by simpa using h
      have := ih (b + row.1.length) i hi
      simpa [rowPtrs] using this

/-- With value rows as long as their id rows, the concatenated value
sequence is as long as the concatenated index sequence. -/
theorem flatMap_snd_length_eq (rows : List (List Int × List Int))
    (hrows : ∀ r ∈ rows, (r.1).length = (r.2).length) :
    (rows.flatMap (fun r => r.2)).length = (rows.flatMap Prod.fst).length := by
  induction rows with
  | nil => simp
  | cons row rest ih =>
    simp only [List.flatMap_cons, List.length_append]
    rw [ih (fun r hr => hrows r (List.mem_cons_of_mem row hr)),
      hrows row (List.mem_cons_self row rest)]

/-! ## The claims -/

/-- Claim C1: for every per-item operation (find, is_match, capture,
split, replace, copy, uppercase — all instances of a per-item op) and for
tokenize, and every supported job count J ≥ 1, running with jobs = J
equals running with jobs = 1, and output order always equals input order
(slot i of the output is the operation applied to slot i of the input)
independent of the worker count. -/
theorem claim1_jobs_invariance {α β : Type} (op : α → β)
    (gramsOf : α → List (List Char)) (data : List α) (J : Nat) (_hJ : 1 ≤ J) :
    runJobs op data J = runJobs op data 1 ∧
    runJobs op data J = data.map op ∧
    tokenizeJobs gramsOf data J = tokenizeJobs gramsOf data 1 := by
  refine ⟨?_, ?_, ?_⟩ <;> simp [runJobs_eq_map, tokenizeJobs]

/-- Witness for C1 at a concrete operation, batch and job count. -/
theorem claim1_jobs_invariance_witness :
    1 ≤ 3 ∧
    (runJobs upperOp [String.toList "ab", String.toList "cd"] 3 =
        runJobs upperOp [String.toList "ab", String.toList "cd"] 1 ∧
      runJobs upperOp [String.toList "ab", String.toList "cd"] 3 =
        [String.toList "ab", String.toList "cd"].map upperOp ∧
      tokenizeJobs (fun s => [s]) [String.toList "ab", String.toList "cd"] 3 =
        tokenizeJobs (fun s => [s]) [String.toList "ab", String.toList "cd"] 1) :=
  ⟨by decide,
    claim1_jobs_invariance upperOp (fun s => [s])
      [String.toList "ab", String.toList "cd"] 3 (by decide)⟩

/-- Claim C2: for every operation, in-place mode (workers moving each
item through the operation and writing it back into the same slot of the
input's storage) yields exactly the values of copy mode on the same
batch, and never changes the number of items. -/
theorem claim2_inplace_copy_equiv {α : Type} (op : α → α) (d : α)
    (data : List α) (jobs : Nat) :
    runInplace op d data jobs = runJobs op data jobs ∧
    (runInplace op d data jobs).length = data.length := by
  constructor
  · rw [runInplace_eq_map, runJobs_eq_map]
  · rw [runInplace_eq_map]; simp

/-- Claim C3: replace with count 0 splices the resolved replacement into
every non-overlapping match; with count n > 0 it splices exactly the
first n matches of the left-to-right scan, leaving everything beyond the
n-th untouched; and when fewer matches exist than the requested count,
the result coincides with replace-all. -/
theorem claim3_replace_count (m : Matcher) (repl s : List Char) (n : Nat)
    (hn : 0 < n) :
    engineReplace m repl 0 s = spliceFrom repl s 0 (allMatches m s) ∧
    engineReplace m repl n s = spliceFrom repl s 0 ((allMatches m s).take n) ∧
    engineReplace m repl ((allMatches m s).length + n) s =
      engineReplace m repl 0 s := by
  have h0 : engineReplace m repl 0 s = spliceFrom repl s 0 (allMatches m s) := by
    unfold engineReplace
    rw [replaceFrom_eq_splice]
    simp [takeBudget, allMatches]
  refine ⟨h0, ?_, ?_⟩
  · unfold engineReplace
    rw [replaceFrom_eq_splice]
    have hne : n ≠ 0 := by omega
    simp [hne, takeBudget, allMatches]
  · have h1 : (allMatches m s).length + n ≠ 0 := by omega
    unfold engineReplace
    rw [if_neg h1, if_pos rfl, replaceFrom_eq_splice, replaceFrom_eq_splice]
    simp only [takeBudget, allMatches]
    rw [List.take_of_length_le (Nat.le_add_right _ _)]

/-- Witness for C3 at the replace-bounding example of the spec. -/
theorem claim3_replace_count_witness :
    0 < 1 ∧
    (engineReplace testMatcher (String.toList "MATCHED") 0
        (String.toList "test string with test and more test content") =
      spliceFrom (String.toList "MATCHED")
        (String.toList "test string with test and more test content") 0
        (allMatches testMatcher
          (String.toList "test string with test and more test content")) ∧
    engineReplace testMatcher (String.toList "MATCHED") 1
        (String.toList "test string with test and more test content") =
      spliceFrom (String.toList "MATCHED")
        (String.toList "test string with test and more test content") 0
        ((allMatches testMatcher
          (String.toList "test string with test and more test content")).take 1) ∧
    engineReplace testMatcher (String.toList "MATCHED")
        ((allMatches testMatcher
          (String.toList "test string with test and more test content")).length + 1)
        (String.toList "test string with test and more test content") =
      engineReplace testMatcher (String.toList "MATCHED") 0
        (String.toList "test string with test and more test content")) :=
  ⟨by decide,
    claim3_replace_count testMatcher (String.toList "MATCHED")
      (String.toList "test string with test and more test content") 1 (by decide)⟩

/-- Claim C4: each backreference $k in a replacement template resolves to
the group lookup at k of the specific match being replaced — the captured
text of a participating group, the empty string for a non-participating
one — and the concrete example replace(["name: John"], name: (\w+),
"Hello $1") returns ["Hello John"]. -/
theorem claim4_backreference (gs : Nat → List Char) (t s w : List Char)
    (k a b : Nat) :
    resolveRepl gs t = renderSegs gs (parseTemplate t) ∧
    renderSegs gs [RSeg.ref k] = gs k ∧
    (RMatch.mk a b [some w]).groupText s 1 = w ∧
    (RMatch.mk a b [none]).groupText s 1 = [] ∧
    runJobs (engineReplace nameMatcher (String.toList "Hello $1") 1)
        [String.toList "name: John"] 1 = [String.toList "Hello John"] := by
  refine ⟨resolveRepl_eq_renderSegs gs t, ?_, rfl, rfl, by decide⟩
  simp [renderSegs]

/-- Claim C5: capture returns, on the first match, the whole match
followed by the groups in declaration order with non-participating groups
as empty strings; on a string with no match it returns the empty
sequence, which is distinct from a sequence of empty strings, so
capture(["a"], (\d+)) = [[]]. -/
theorem claim5_capture (m : Matcher) (s t : List Char) (r : RMatch)
    (hmatch : m s 0 = some r) (hnone : m t 0 = none) :
    captureOp m s = r.matchText s :: r.groups.map (fun g => g.getD []) ∧
    captureOp m t = [] ∧
    runJobs (captureOp digitMatcher) [String.toList "a"] 1 = [[]] ∧
    ([[]] : List (List (List Char))) ≠ [[[], []]] := by
  refine ⟨?_, ?_, by decide, by decide⟩
  · simp [captureOp, hmatch]
  · simp [captureOp, hnone]

/-- Witness for C5 at the pattern (\d+) on a matching and on a
non-matching string. -/
theorem claim5_capture_witness :
    digitMatcher (String.toList "x12y3") 0 = some ⟨1, 3, [some ['1', '2']]⟩ ∧
    digitMatcher (String.toList "a") 0 = none ∧
    (captureOp digitMatcher (String.toList "x12y3") =
        RMatch.matchText ⟨1, 3, [some ['1', '2']]⟩ (String.toList "x12y3") ::
          (RMatch.mk 1 3 [some ['1', '2']]).groups.map (fun g => g.getD []) ∧
      captureOp digitMatcher (String.toList "a") = [] ∧
      runJobs (captureOp digitMatcher) [String.toList "a"] 1 = [[]] ∧
      ([[]] : List (List (List Char))) ≠ [[[], []]]) :=
  ⟨by decide, by decide,
    claim5_capture digitMatcher (String.toList "x12y3") (String.toList "a")
      ⟨1, 3, [some ['1', '2']]⟩ (by decide) (by decide)⟩

/-- Claim C6: split returns the ordered fragments between consecutive
non-overlapping match boundaries, including empty fragments; with zero
delimiter occurrences it returns the one-element sequence holding the
original string; and the spec's concrete examples hold. -/
theorem claim6_split (m : Matcher) (s t : List Char) (hnone : m t 0 = none) :
    splitOp m s = fragmentsFrom s 0 (allMatches m s) ∧
    splitOp m t = [t] ∧
    splitOp commaSemiMatcher (String.toList "a,,b") =
      [String.toList "a", [], String.toList "b"] ∧
    splitOp commaSemiMatcher (String.toList "item1,item2;item3,item4") =
      [String.toList "item1", String.toList "item2", String.toList "item3",
        String.toList "item4"] := by
  refine ⟨splitGo_eq_fragments m s (s.length + 1) 0 0, ?_, by decide, by decide⟩
  simp [splitOp, splitGo, hnone]

/-- Witness for C6 at the delimiter pattern [,;]. -/
theorem claim6_split_witness :
    commaSemiMatcher (String.toList "abc") 0 = none ∧
    (splitOp commaSemiMatcher (String.toList "a,,b") =
        fragmentsFrom (String.toList "a,,b") 0
          (allMatches commaSemiMatcher (String.toList "a,,b")) ∧
      splitOp commaSemiMatcher (String.toList "abc") = [String.toList "abc"] ∧
      splitOp commaSemiMatcher (String.toList "a,,b") =
        [String.toList "a", [], String.toList "b"] ∧
      splitOp commaSemiMatcher (String.toList "item1,item2;item3,item4") =
        [String.toList "item1", String.toList "item2", String.toList "item3",
          String.toList "item4"]) :=
  ⟨by decide,
    claim6_split commaSemiMatcher (String.toList "a,,b") (String.toList "abc")
      (by decide)⟩

/-- Claim C7: an invalid pattern or a non-positive job count makes the
call fail with the corresponding error (PatternCompilationError,
JobCountError) before any worker range is spawned, atomically — no batch
is returned at all in the error cases — and a valid call returns the
complete batch. -/
theorem claim7_errors_before_dispatch {β : Type} (badPat : List Char)
    (m : Matcher) (jobs bad : Int) (op : Matcher → List Char → β)
    (data : List (List Char)) (hbad : bad < 1) (hok : 1 ≤ jobs) :
    callEngine (Except.error badPat) jobs op data =
      Except.error (EngineError.patternCompilation badPat) ∧
    spawnedRanges (Except.error badPat) jobs data.length = [] ∧
    callEngine (Except.ok m) bad op data = Except.error EngineError.jobCount ∧
    spawnedRanges (Except.ok m) bad data.length = [] ∧
    callEngine (Except.ok m) jobs op data = Except.ok (data.map (op m)) := by
  refine ⟨rfl, rfl, ?_, ?_, ?_⟩
  · simp [callEngine, hbad]
  · simp [spawnedRanges, hbad]
  · rw [callEngine, if_neg (by omega)]
    rw [runJobs_eq_map]

/-- Witness for C7 at a failed compilation, a zero job count, and a valid
call. -/
theorem claim7_errors_before_dispatch_witness :
    (0 : Int) < 1 ∧ (1 : Int) ≤ 4 ∧
    (callEngine (Except.error (String.toList "(")) 4 findOp
        [String.toList "a1"] =
      Except.error (EngineError.patternCompilation (String.toList "(")) ∧
    spawnedRanges (Except.error (String.toList "(")) 4
        [String.toList "a1"].length = [] ∧
    callEngine (Except.ok digitMatcher) 0 findOp [String.toList "a1"] =
      Except.error EngineError.jobCount ∧
    spawnedRanges (Except.ok digitMatcher) 0 [String.toList "a1"].length = [] ∧
    callEngine (Except.ok digitMatcher) 4 findOp [String.toList "a1"] =
      Except.ok ([String.toList "a1"].map (findOp digitMatcher))) :=
  ⟨by decide, by decide,
    claim7_errors_before_dispatch (String.toList "(") digitMatcher 4 0 findOp
      [String.toList "a1"] (by decide) (by decide)⟩

/-- Counterexample to C8 as stated: tokenize_string's jobs argument,
when omitted, defaults to 1 and never goes through auto-selection, so on
a batch of 1000 items with 8 CPUs the selected job count (1) differs
from the auto-selected one (8). -/
theorem claim8_counterexample :
    tokenizeWrapperJobs none = 1 ∧
    autoSelectJobs 8 (List.replicate 1000 (String.toList "x")) = 8 ∧
    tokenizeWrapperJobs none ≠
      autoSelectJobs 8 (List.replicate 1000 (String.toList "x")) := by
  have hauto : autoSelectJobs 8 (List.replicate 1000 (String.toList "x")) = 8 := by
    unfold autoSelectJobs
    rw [List.length_replicate]
    norm_num
  refine ⟨rfl, hauto, ?_⟩
  rw [hauto]
  decide

/-- Claim C8 (amended): when jobs is omitted, each of the five regexp
wrappers (find, is_match, capture, split, replace) selects 1 if the batch
has fewer than 1000 items and the CPU count otherwise; tokenize_string
and the copy utilities instead default to jobs = 1. -/
theorem claim8_auto_jobs (cpu : Nat) (data : List (List Char)) :
    regexpWrapperJobs cpu data none =
      (if data.length < 1000 then 1 else cpu) ∧
    tokenizeWrapperJobs none = 1 ∧
    copyWrapperJobs none = 1 :=
  ⟨rfl, rfl, rfl⟩

/-- Claim C9: the assembled compressed-row output concatenates all rows'
vocabulary ids into one index sequence and all counts into one value
sequence in row order, and its row-pointer sequence has length N+1,
first element 0, last element the total nonzero count, and consecutive
elements differing by the number of (id, count) pairs of the row in
between. -/
theorem claim9_csr_assembly (rows : List (List Int × List Int)) (i : Nat)
    (hrows : ∀ r ∈ rows, (r.1).length = (r.2).length)
    (hi : i < rows.length) :
    (assembleCSR rows).1 = rows.flatMap Prod.fst ∧
    (assembleCSR rows).2.1 = rows.flatMap (fun r => r.2) ∧
    (assembleCSR rows).2.2.length = rows.length + 1 ∧
    (assembleCSR rows).2.2.head? = some 0 ∧
    (assembleCSR rows).2.2.getLast? =
      some ((rows.flatMap Prod.fst).length) ∧
    ((assembleCSR rows).2.1).length = ((assembleCSR rows).1).length ∧
    (assembleCSR rows).2.2.getD (i + 1) 0 =
      (assembleCSR rows).2.2.getD i 0 + ((rows.getD i ([], [])).1).length := by
  rw [assembleCSR_eq]
  refine ⟨rfl, rfl, ?_, rfl, ?_, ?_, ?_⟩
  · simp [rowPtrs_length]
  · rw [List.getLast?_eq_getLast _ (by simp), rowPtrs_getLast rows 0]
    simp
  · simpa using flatMap_snd_length_eq rows hrows
  · simpa using rowPtrs_succ_diff rows 0 i hi

/-- Witness for C9 at a concrete two-row batch. -/
theorem claim9_csr_assembly_witness :
    (∀ r ∈ [([1, 2], [3, 4]), ([5], [6])].map
        (fun p => ((p.1 : List Int), (p.2 : List Int))),
      (r.1).length = (r.2).length) ∧ 0 < 2 ∧
    ((assembleCSR [([1, 2], [3, 4]), ([5], [6])]).1 =
        [([1, 2], [3, 4]), ([5], [6])].flatMap Prod.fst ∧
      (assembleCSR [([1, 2], [3, 4]), ([5], [6])]).2.1 =
        [([1, 2], [3, 4]), ([5], [6])].flatMap (fun r => r.2) ∧
      (assembleCSR [([1, 2], [3, 4]), ([5], [6])]).2.2.length =
        [([1, 2], [3, 4]), ([5], [6])].length + 1 ∧
      (assembleCSR [([1, 2], [3, 4]), ([5], [6])]).2.2.head? = some 0 ∧
      (assembleCSR [([1, 2], [3, 4]), ([5], [6])]).2.2.getLast? =
        some (([([1, 2], [3, 4]), ([5], [6])].flatMap Prod.fst).length) ∧
      ((assembleCSR [([1, 2], [3, 4]), ([5], [6])]).2.1).length =
        ((assembleCSR [([1, 2], [3, 4]), ([5], [6])]).1).length ∧
      (assembleCSR [([1, 2], [3, 4]), ([5], [6])]).2.2.getD (0 + 1) 0 =
        (assembleCSR [([1, 2], [3, 4]), ([5], [6])]).2.2.getD 0 0 +
          (([([1, 2], [3, 4]), ([5], [6])].getD 0 ([], [])).1).length) :=
  ⟨by decide, by decide,
    claim9_csr_assembly [([1, 2], [3, 4]), ([5], [6])] 0 (by decide) (by decide)⟩

/-- Claim C10: the replace wrapper's count argument defaults to 1 when
omitted, so by default only the first match of each string is replaced. -/
theorem claim10_replace_default (m : Matcher) (data : List (List Char))
    (repl s : List Char) :
    replaceWrapper m data repl = runJobs (engineReplace m repl 1) data 1 ∧
    engineReplace m repl 1 s =
      spliceFrom repl s 0 ((allMatches m s).take 1) := by
  refine ⟨rfl, ?_⟩
  unfold engineReplace
  rw [replaceFrom_eq_splice]
  simp [takeBudget, allMatches]

end Yurki
